import Mathlib

/-!
Verification of the openclaw exec-approvals engine (policy resolution,
allowlist matching, the host dispatcher state machine, approval decisions,
node binding resolution, output caps and environment filtering).

The engine's behaviour is documented in `docs/refactor/exec-host.md`,
`docs/platforms/macos.md` and the exec-approvals documentation; the
implementation itself (`src/infra/exec-approvals.ts` and the node runner)
is not part of this tree, so each component is modelled from the
documented behaviour, faithfully to its words.
-/

namespace OpenClaw

/-- Security mode (`exec.security`): `deny` blocks all host exec requests,
`allowlist` allows only allowlisted commands, `full` allows everything. -/
inductive Security
  | deny
  | allowlist
  | full
deriving DecidableEq, Repr

/-- Ask mode (`exec.ask`): `off` never prompts, `onMiss` prompts only when
the allowlist does not match, `always` prompts on every command. -/
inductive Ask
  | off
  | onMiss
  | always
deriving DecidableEq, Repr

/-- Execution host: isolated sandbox, the gateway machine, or a paired node. -/
inductive Host
  | sandbox
  | gateway
  | node
deriving DecidableEq, Repr

/-- An allowlist entry: a case-insensitive glob pattern over the resolved
executable path, plus usage metadata. -/
structure AllowlistEntry where
  pattern : String
  lastUsedAt : Option Nat := none
  lastUsedCommand : Option String := none
  lastResolvedPath : Option String := none
deriving DecidableEq, Repr

/-- Per-agent policy: security mode, ask mode, ask fallback, the auto-allow
flag for skill binaries, and the ordered allowlist. -/
structure AgentPolicy where
  security : Security
  ask : Ask
  askFallback : Security
  autoAllowSkills : Bool
  allowlist : List AllowlistEntry
deriving DecidableEq, Repr

/-- The persisted policy document (`~/.clawdbot/exec-approvals.json`):
version, socket path+token, defaults, and the per-agent policy map. -/
structure PolicyDocument where
  version : Nat
  socketPath : String
  socketToken : String
  defaults : AgentPolicy
  agents : List (String × AgentPolicy)
deriving DecidableEq, Repr

/-! ## Allowlist matcher (glob compilation and matching) -/

/-- A compiled glob token: a literal character, `*` (matches within one
path segment), `**` (matches across segments), or a character class. -/
inductive GlobTok
  | lit (c : Char)
  | star
  | dstar
deriving DecidableEq, Repr

/-- Modelled from the spec: compile a glob pattern into tokens. `**`
compiles to `dstar`, `*` to `star`, any other character to a literal.
The spec requires that some patterns fail to compile (and are then
treated as non-matches); the documented pattern language has only `*`
and `**`, so the unsupported glob character-class opener `[` is the
modelled compile failure. -/
def compileGlob : List Char → Option (List GlobTok)
  | [] => some []
  | c :: rest =>
    if c = '[' then none
    else if c = '*' then
      match rest with
      | '*' :: rest2 => (compileGlob rest2).map (fun ts => GlobTok.dstar :: ts)
      | [] => some [GlobTok.star]
      | c2 :: rest2 => (compileGlob (c2 :: rest2)).map (fun ts => GlobTok.star :: ts)
    else (compileGlob rest).map (fun ts => GlobTok.lit c :: ts)

/-- Modelled from the spec: run a compiled glob over a path,
case-insensitively; `star` consumes characters within one path segment
(never `/`), `dstar` consumes any characters including `/`. The `fuel`
argument makes the recursion structural; every recursive call strictly
decreases `ts.length + s.length`, so any fuel above that measure gives
the untruncated answer (see `globRunF_fuel_irrelevant`). -/
def globRunF : Nat → List GlobTok → List Char → Bool
  | 0, _, _ => false
  | _ + 1, [], [] => true
  | _ + 1, [], _ :: _ => false
  | _ + 1, GlobTok.lit _ :: _, [] => false
  | f + 1, GlobTok.lit c :: ts, x :: xs => c.toLower = x.toLower && globRunF f ts xs
  | f + 1, GlobTok.star :: ts, [] => globRunF f ts []
  | f + 1, GlobTok.star :: ts, x :: xs =>
      globRunF f ts (x :: xs) || (!(x = '/') && globRunF f (GlobTok.star :: ts) xs)
  | f + 1, GlobTok.dstar :: ts, [] => globRunF f ts []
  | f + 1, GlobTok.dstar :: ts, x :: xs =>
      globRunF f ts (x :: xs) || globRunF f (GlobTok.dstar :: ts) xs

/-- Run a compiled glob over a path with fuel that provably suffices. -/
def globRun (ts : List GlobTok) (s : List Char) : Bool :=
  globRunF (ts.length + s.length + 1) ts s

/-- Any fuel strictly above `ts.length + s.length` yields the same answer,
so `globRun` computes the true (fuel-free) glob semantics. -/
theorem globRunF_fuel_irrelevant :
    ∀ (f g : Nat) (ts : List GlobTok) (s : List Char),
      ts.length + s.length < f → ts.length + s.length < g →
      globRunF f ts s = globRunF g ts s := by
  intro f
  induction f with
  | zero => intro g ts s hf; omega
  | succ f ih =>
    intro g ts s hf hg
    match g, hg with
    | g + 1, hg =>
      match ts, s with
      | [], [] => rfl
      | [], _ :: _ => rfl
      | GlobTok.lit _ :: _, [] => rfl
      | GlobTok.lit c :: ts, x :: xs =>
        simp only [globRunF, List.length_cons] at *
        rw [ih g ts xs (by omega) (by omega)]
      | GlobTok.star :: ts, [] =>
        simp only [globRunF, List.length_cons, List.length_nil] at *
        rw [ih g ts [] (by simp; omega) (by simp; omega)]
      | GlobTok.star :: ts, x :: xs =>
        simp only [globRunF, List.length_cons] at *
        rw [ih g ts (x :: xs) (by simp; omega) (by simp; omega),
          ih g (GlobTok.star :: ts) xs (by simp; omega) (by simp; omega)]
      | GlobTok.dstar :: ts, [] =>
        simp only [globRunF, List.length_cons, List.length_nil] at *
        rw [ih g ts [] (by simp; omega) (by simp; omega)]
      | GlobTok.dstar :: ts, x :: xs =>
        simp only [globRunF, List.length_cons] at *
        rw [ih g ts (x :: xs) (by simp; omega) (by simp; omega),
          ih g (GlobTok.dstar :: ts) xs (by simp; omega) (by simp; omega)]

/-- Modelled from the spec: does the glob pattern match the path?
A pattern that fails to compile never matches (fail closed). -/
def globMatch (pat : List Char) (path : List Char) : Bool :=
  match compileGlob pat with
  | none => false
  | some ts => globRun ts path

/-- String front-end for `globMatch`. -/
def globMatchStr (pat path : String) : Bool :=
  globMatch pat.toList path.toList

/-- Modelled from the spec: does this allowlist entry match the resolved
executable path? Compile failures are treated as non-matches. -/
def entryMatches (path : List Char) (e : AllowlistEntry) : Bool :=
  globMatch e.pattern.toList path

/-- Modelled from the spec: test the resolved path against the entries in
order; the first matching entry wins and its index is returned. Entries
whose pattern fails to compile are skipped. -/
def findMatch (path : List Char) : List AllowlistEntry → Option Nat
  | [] => none
  | e :: rest =>
    if entryMatches path e then some 0
    else (findMatch path rest).map (fun i => i + 1)

/-! ## Host dispatcher state machine -/

/-- Terminal policy outcome of the dispatcher for one request:
either the command proceeds to execution or it is denied. -/
inductive Outcome
  | executing
  | denied
deriving DecidableEq, Repr

/-- A human decision returned by the approving UI. -/
inductive Decision
  | allowOnce
  | allowAlways
  | denyCmd
deriving DecidableEq, Repr

/-- What the Approval Broker observes when a prompt is needed: either no
UI listener is reachable within the connect timeout, or the UI returns
exactly one decision. -/
inductive BrokerResult
  | unreachable
  | decided (d : Decision)
deriving DecidableEq, Repr

/-- Dispatcher result: the policy outcome plus whether the request entered
the `Prompting` state. -/
structure DispatchResult where
  outcome : Outcome
  prompted : Bool
deriving DecidableEq, Repr

/-- Modelled from the spec: the outcome of applying `askFallback` as if it
were the effective security mode, with no further prompting: `deny`
denies, `full` executes, `allowlist` re-runs the allowlist check. -/
def fallbackOutcome (fb : Security) (entries : List AllowlistEntry) (path : List Char) :
    Outcome :=
  match fb with
  | .deny => .denied
  | .full => .executing
  | .allowlist => if (findMatch path entries).isSome then .executing else .denied

/-- Modelled from the spec: resolve the `Prompting` state. If no UI is
reachable, `askFallback` is applied; otherwise `AllowOnce`/`AllowAlways`
lead to `Executing` and `Deny` to `Denied`. -/
def promptResult (pol : AgentPolicy) (path : List Char) (b : BrokerResult) :
    DispatchResult :=
  match b with
  | .unreachable => ⟨fallbackOutcome pol.askFallback pol.allowlist path, true⟩
  | .decided .allowOnce => ⟨.executing, true⟩
  | .decided .allowAlways => ⟨.executing, true⟩
  | .decided .denyCmd => ⟨.denied, true⟩

/-- Modelled from the spec: the Host Dispatcher state machine for a
gateway/node request, given the effective agent policy, the resolved
executable path and the broker's behaviour. `security=deny` always
denies; `security=full` executes at `ask=off` and otherwise prompts
(`on-miss` behaves like `always` since there is no allowlist to miss);
`security=allowlist` consults the allowlist first and prompts according
to the ask mode. -/
def dispatch (pol : AgentPolicy) (path : List Char) (b : BrokerResult) :
    DispatchResult :=
  match pol.security with
  | .deny => ⟨.denied, false⟩
  | .full =>
    match pol.ask with
    | .off => ⟨.executing, false⟩
    | .onMiss => promptResult pol path b
    | .always => promptResult pol path b
  | .allowlist =>
    if (findMatch path pol.allowlist).isSome then
      match pol.ask with
      | .always => promptResult pol path b
      | .off => ⟨.executing, false⟩
      | .onMiss => ⟨.executing, false⟩
    else
      match pol.ask with
      | .off => ⟨.denied, false⟩
      | .onMiss => promptResult pol path b
      | .always => promptResult pol path b

/-- Did the request enter the `Prompting` state? -/
def entersPrompting (pol : AgentPolicy) (path : List Char) : Bool :=
  (dispatch pol path .unreachable).prompted

/-! ## Policy resolution (per exec) -/

/-- One level of the `exec` settings chain: any of `host`, `security`,
`ask`, `askFallback`, `node` may be set or absent. Used for the explicit
tool-call parameters, the per-agent override and the global defaults. -/
structure ExecOverrides where
  host : Option Host := none
  security : Option Security := none
  ask : Option Ask := none
  askFallback : Option Security := none
  node : Option String := none
deriving DecidableEq, Repr

/-- The effective `(host, security, ask, askFallback, node)` tuple. -/
structure EffectiveExec where
  host : Host
  security : Security
  ask : Ask
  askFallback : Security
  node : Option String
deriving DecidableEq, Repr

/-- Modelled from the spec: resolve one field through the precedence chain
explicit tool-call parameter → per-agent override → global default →
hardcoded safe default. -/
def resolveField {α : Type} (p a g : Option α) (d : α) : α :=
  p.getD (a.getD (g.getD d))

/-- Modelled from the spec: resolve the effective policy, each field
independently through its own chain; the hardcoded safe defaults are
`host=sandbox`, `security=deny`, `ask=on-miss`, `askFallback=deny`, and
no default node binding. -/
def resolveExecPolicy (p a g : ExecOverrides) : EffectiveExec where
  host := resolveField p.host a.host g.host Host.sandbox
  security := resolveField p.security a.security g.security Security.deny
  ask := resolveField p.ask a.ask g.ask Ask.onMiss
  askFallback := resolveField p.askFallback a.askFallback g.askFallback Security.deny
  node := resolveField (p.node.map some) (a.node.map some) (g.node.map some) none

/-! ## Policy store: approval decisions and allowlist upserts -/

/-- Modelled from the spec: append-or-update by pattern identity. If an
entry with the same pattern exists it is replaced, otherwise the new
entry is appended. -/
def upsertEntry (entries : List AllowlistEntry) (e : AllowlistEntry) :
    List AllowlistEntry :=
  if entries.any (fun x => x.pattern = e.pattern) then
    entries.map (fun x => if x.pattern = e.pattern then e else x)
  else
    entries ++ [e]

/-- The policy in force for an agent: its own entry, else the defaults. -/
def agentPolicyFor (doc : PolicyDocument) (agentId : String) : AgentPolicy :=
  match doc.agents.find? (fun kv => kv.1 = agentId) with
  | some kv => kv.2
  | none => doc.defaults

/-- Replace an agent's entry in the agents map, or append a fresh one. -/
def upsertAgents (l : List (String × AgentPolicy)) (agentId : String)
    (pol : AgentPolicy) : List (String × AgentPolicy) :=
  if l.any (fun kv => kv.1 = agentId) then
    l.map (fun kv => if kv.1 = agentId then (kv.1, pol) else kv)
  else
    l ++ [(agentId, pol)]

/-- Replace (or create) the stored policy for one agent. -/
def setAgentPolicy (doc : PolicyDocument) (agentId : String) (pol : AgentPolicy) :
    PolicyDocument :=
  { doc with agents := upsertAgents doc.agents agentId pol }

/-- Upsert an allowlist entry into one agent's stored policy. -/
def upsertAllowlistEntry (doc : PolicyDocument) (agentId : String)
    (e : AllowlistEntry) : PolicyDocument :=
  let pol := agentPolicyFor doc agentId
  setAgentPolicy doc agentId { pol with allowlist := upsertEntry pol.allowlist e }

/-- Modelled from the spec: the policy-store effect of a decision, applied
before the broker returns. `AllowAlways` upserts an allowlist entry for
the resolved executable path into the prompting host's document;
`AllowOnce` and `Deny` never mutate stored policy. -/
def recordDecision (doc : PolicyDocument) (agentId : String)
    (resolvedPath : String) (d : Decision) : PolicyDocument :=
  match d with
  | .allowAlways =>
      upsertAllowlistEntry doc agentId
        { pattern := resolvedPath, lastResolvedPath := some resolvedPath }
  | .allowOnce => doc
  | .denyCmd => doc

/-- Modelled from the spec: the broker applies the decision's policy-store
effect and only then returns the decision to the dispatcher. -/
def brokerReturn (doc : PolicyDocument) (agentId : String)
    (resolvedPath : String) (d : Decision) : PolicyDocument × Decision :=
  (recordDecision doc agentId resolvedPath d, d)

/-! ## Node binding resolution -/

/-- A connected node as seen by the node directory. -/
structure NodeInfo where
  nodeId : String
  displayName : String
  remoteIp : String
deriving DecidableEq, Repr

/-- Node resolution failure: more than one candidate, or none. -/
inductive NodeResolveError
  | ambiguous
  | notFound
deriving DecidableEq, Repr

/-- Modelled from the spec: display-name normalization (trim surrounding
spaces, compare case-insensitively). -/
def normName (s : String) : List Char :=
  (((s.toList.dropWhile (fun c => c = ' ')).reverse.dropWhile
      (fun c => c = ' ')).reverse).map Char.toLower

/-- One resolution stage: zero candidates falls through to the next stage,
exactly one candidate resolves, two or more fail closed as ambiguous. -/
def pickUnique (candidates : List NodeInfo)
    (next : Except NodeResolveError NodeInfo) : Except NodeResolveError NodeInfo :=
  match candidates with
  | [] => next
  | [n] => Except.ok n
  | _ :: _ :: _ => Except.error NodeResolveError.ambiguous

/-- Modelled from the spec: resolve a node reference against the connected
nodes, trying in order exact id, normalized display name, remote IP,
then an id prefix of at least 6 characters; each stage fails closed as
ambiguous when it has several candidates. An empty reference resolves
only when exactly one node is connected. -/
def resolveNodeRef (ref : String) (nodes : List NodeInfo) :
    Except NodeResolveError NodeInfo :=
  if ref = "" then
    pickUnique nodes (Except.error NodeResolveError.notFound)
  else
    pickUnique (nodes.filter (fun n => n.nodeId = ref))
      (pickUnique (nodes.filter (fun n => normName n.displayName = normName ref))
        (pickUnique (nodes.filter (fun n => n.remoteIp = ref))
          (if 6 ≤ ref.toList.length then
            pickUnique (nodes.filter (fun n => ref.toList.isPrefixOf n.nodeId.toList))
              (Except.error NodeResolveError.notFound)
          else Except.error NodeResolveError.notFound)))

/-! ## Output governance -/

/-- Combined stdout+stderr byte ceiling (200 KB). -/
def maxOutputBytes : Nat := 200 * 1024

/-- Tail preserved for the `exec.finished` event (20 KB). -/
def tailOutputBytes : Nat := 20 * 1024

/-- The explicit truncation marker, the UTF-8 bytes of the documented
suffix `… (truncated)`. -/
def truncationMarker : List Nat :=
  [226, 128, 166, 32, 40, 116, 114, 117, 110, 99, 97, 116, 101, 100, 41]

/-- The last `n` elements of a list. -/
def lastBytes (n : Nat) (l : List Nat) : List Nat :=
  l.drop (l.length - n)

/-- Modelled from the spec: cap the captured combined output at the
200 KB ceiling, keeping the most recent bytes. -/
def capCombinedOutput (o : List Nat) : List Nat :=
  if o.length ≤ maxOutputBytes then o else lastBytes maxOutputBytes o

/-- Modelled from the spec: the tail carried by the `exec.finished` event:
when the output exceeds the cap, exactly the last 20 KB with the
truncation marker appended; otherwise the output itself (truncated to
the event tail size if needed, without claiming more was lost). -/
def finishedEventTail (o : List Nat) : List Nat :=
  if o.length ≤ maxOutputBytes then lastBytes tailOutputBytes o
  else lastBytes tailOutputBytes o ++ truncationMarker

/-! ## Environment filtering for `system.run` -/

/-- Modelled from the spec: the caller-supplied environment override names
dropped by `system.run`: `PATH`, `NODE_OPTIONS`, `RUBYOPT`, and anything
matching `DYLD_*`, `LD_*`, `PYTHON*` or `PERL*`. -/
def isFilteredEnvName (n : String) : Bool :=
  n = "PATH" || n = "NODE_OPTIONS" || n = "RUBYOPT" ||
  "DYLD_".toList.isPrefixOf n.toList ||
  "LD_".toList.isPrefixOf n.toList ||
  "PYTHON".toList.isPrefixOf n.toList ||
  "PERL".toList.isPrefixOf n.toList

/-- Drop the filtered names from the caller's overrides. -/
def filterEnvOverrides (o : List (String × String)) : List (String × String) :=
  o.filter (fun kv => !(isFilteredEnvName kv.1))

/-- Modelled from the spec: the effective environment merges the filtered
overrides over the host app's environment; an override binding shadows
the app binding of the same name. -/
def mergedEnv (appEnv o : List (String × String)) : List (String × String) :=
  filterEnvOverrides o ++ appEnv

/-- Lookup of a name in an environment list (first binding wins). -/
def envLookup (env : List (String × String)) (n : String) : Option String :=
  (env.find? (fun kv => kv.1 = n)).map (fun kv => kv.2)

/-- A path with no glob metacharacters, matched only literally. -/
def isLiteralPath (l : List Char) : Bool :=
  l.all (fun c => !(c = '[') && !(c = '*'))

/-! ## Helper lemmas -/

/-- Resolving the prompt always records that the `Prompting` state was
entered, whatever the broker does. -/
theorem promptResult_prompted (pol : AgentPolicy) (path : List Char) (b : BrokerResult) :
    (promptResult pol path b).prompted = true := by
  cases b with
  | unreachable => rfl
  | decided d => cases d <;> rfl

/-- `findMatch` returns `none` exactly when no entry matches. -/
theorem findMatch_eq_none (path : List Char) (es : List AllowlistEntry) :
    findMatch path es = none ↔ ∀ e ∈ es, entryMatches path e = false := by
  induction es with
  | nil => simp [findMatch]
  | cons e rest ih =>
    by_cases h : entryMatches path e = true
    · simp [findMatch, h]
    · simp only [Bool.not_eq_true] at h
      simp [findMatch, h, ih]

/-- A literal path compiles to the sequence of its literal tokens. -/
theorem compileGlob_literal (l : List Char) (h : isLiteralPath l = true) :
    compileGlob l = some (l.map GlobTok.lit) := by
  induction l with
  | nil => rfl
  | cons c rest ih =>
    simp only [isLiteralPath, List.all_cons, Bool.and_eq_true, Bool.not_eq_true',
      decide_eq_false_iff_not] at h
    obtain ⟨⟨hc1, hc2⟩, hrest⟩ := h
    have ih' := ih (by simpa [isLiteralPath] using hrest)
    rw [compileGlob.eq_def]
    simp [hc1, hc2, ih']

/-- A sequence of literal tokens matches its own path (the
case-insensitive comparison is reflexive). -/
theorem globRunF_lit_self (l : List Char) :
    ∀ f : Nat, l.length < f → globRunF f (l.map GlobTok.lit) l = true := by
  induction l with
  | nil =>
    intro f hf
    match f, hf with
    | f + 1, _ => rfl
  | cons c rest ih =>
    intro f hf
    match f, hf with
    | f + 1, hf =>
      have h1 : globRunF f (rest.map GlobTok.lit) rest = true :=
        ih f (by simp only [List.length_cons] at hf; omega)
      simp [globRunF, h1]

/-- A literal path matches itself as a glob pattern. -/
theorem globMatch_literal_self (l : List Char) (h : isLiteralPath l = true) :
    globMatch l l = true := by
  unfold globMatch
  rw [compileGlob_literal l h]
  unfold globRun
  exact globRunF_lit_self l _ (by simp only [List.length_map]; omega)

/-- `findMatch` returns the index of a matching entry and every entry
before that index does not match: first match wins. -/
theorem findMatch_first_wins (path : List Char) :
    ∀ (es : List AllowlistEntry) (i : Nat),
      findMatch path es = some i →
        (∃ e, es[i]? = some e ∧ entryMatches path e = true)
        ∧ ∀ j, j < i → ∀ e, es[j]? = some e → entryMatches path e = false := by
  intro es
  induction es with
  | nil => intro i h; simp [findMatch] at h
  | cons e rest ih =>
    intro i h
    by_cases he : entryMatches path e = true
    · simp only [findMatch, he, if_true, Option.some.injEq] at h
      subst h
      exact ⟨⟨e, by simp, he⟩, fun j hj => by omega⟩
    · simp only [Bool.not_eq_true] at he
      simp only [findMatch, he, Bool.false_eq_true, if_false] at h
      obtain ⟨k, hk, hki⟩ := Option.map_eq_some'.mp h
      subst hki
      obtain ⟨⟨e1, he1, hm1⟩, hall⟩ := ih k hk
      refine ⟨⟨e1, by simpa using he1, hm1⟩, ?_⟩
      intro j hj e2 hje2
      cases j with
      | zero =>
        simp only [List.getElem?_cons_zero, Option.some.injEq] at hje2
        subst hje2
        exact he
      | succ j =>
        exact hall j (by omega) e2 (by simpa using hje2)

/-- Replacing an agent's policy in place: looking the agent up afterwards
finds the new policy. -/
theorem find?_replaceAgents (l : List (String × AgentPolicy)) (aId : String)
    (pol : AgentPolicy) (h : l.any (fun kv => kv.1 = aId) = true) :
    ((l.map (fun kv => if kv.1 = aId then (kv.1, pol) else kv)).find?
        (fun kv => kv.1 = aId)).map (fun kv => kv.2) = some pol := by
  induction l with
  | nil => simp at h
  | cons kv rest ih =>
    by_cases hk : kv.1 = aId
    · simp [List.find?, hk]
    · simp only [List.any_cons, Bool.or_eq_true, decide_eq_true_eq] at h
      rcases h with h | h
      · exact absurd h hk
      · simpa [List.find?, hk] using ih (by simpa using h)

/-- After an agent upsert, looking the agent up finds the new policy. -/
theorem find?_upsertAgents (l : List (String × AgentPolicy)) (aId : String)
    (pol : AgentPolicy) :
    ((upsertAgents l aId pol).find? (fun kv => kv.1 = aId)).map (fun kv => kv.2)
      = some pol := by
  unfold upsertAgents
  by_cases h : l.any (fun kv => kv.1 = aId) = true
  · rw [if_pos h]
    exact find?_replaceAgents l aId pol h
  · rw [if_neg h]
    have hn : l.find? (fun kv => kv.1 = aId) = none := by
      rw [List.find?_eq_none]
      intro kv hkv hcontra
      exact h (List.any_eq_true.mpr ⟨kv, hkv, hcontra⟩)
    rw [List.find?_append, hn]
    simp [List.find?]

/-- Writing an agent's policy and reading it back yields that policy. -/
theorem agentPolicyFor_set_same (doc : PolicyDocument) (aId : String)
    (pol : AgentPolicy) :
    agentPolicyFor (setAgentPolicy doc aId pol) aId = pol := by
  have hf := find?_upsertAgents doc.agents aId pol
  unfold agentPolicyFor setAgentPolicy
  rcases hfind : (upsertAgents doc.agents aId pol).find? (fun kv => kv.1 = aId) with _ | kv0
  · rw [hfind] at hf
    simp at hf
  · rw [hfind] at hf
    simp only [Option.map_some', Option.some.injEq] at hf
    rw [hfind]
    exact hf

/-- The upserted entry is always present in the updated allowlist. -/
theorem mem_upsertEntry_self (entries : List AllowlistEntry) (e : AllowlistEntry) :
    e ∈ upsertEntry entries e := by
  unfold upsertEntry
  by_cases h : entries.any (fun x => x.pattern = e.pattern) = true
  · simp only [h, if_true]
    obtain ⟨x, hx, hxp⟩ := List.any_eq_true.mp h
    have hxp2 : x.pattern = e.pattern := by simpa using hxp
    exact List.mem_map.mpr ⟨x, hx, by simp [hxp2]⟩
  · simp [h]

/-- If some entry of the list matches, `findMatch` finds a match. -/
theorem findMatch_isSome_of_mem (path : List Char) (es : List AllowlistEntry)
    (e : AllowlistEntry) (he : e ∈ es) (hm : entryMatches path e = true) :
    (findMatch path es).isSome = true := by
  rcases hfm : findMatch path es with _ | i
  · have := (findMatch_eq_none path es).mp hfm e he
    rw [hm] at this
    exact absurd this (by simp)
  · rfl

/-! ## Claim theorems -/

/-- C1: for every execution request whose effective security mode is
`deny`, the Host Dispatcher's result is `Denied`, for every ask mode,
every allowlist content and every broker behaviour, without prompting. -/
theorem exec_security_deny_always_denied (pol : AgentPolicy) (path : List Char)
    (b : BrokerResult) (h : pol.security = Security.deny) :
    dispatch pol path b = ⟨Outcome.denied, false⟩ := by
  unfold dispatch
  rw [h]

/-- Witness for C1 at a concrete policy with `ask=always` and a matching
allowlist entry: the request is still denied without prompting. -/
theorem exec_security_deny_always_denied_witness :
    (⟨Security.deny, Ask.always, Security.full, false,
        [⟨"/usr/bin/jq", none, none, none⟩]⟩ : AgentPolicy).security = Security.deny
    ∧ dispatch
        ⟨Security.deny, Ask.always, Security.full, false,
          [⟨"/usr/bin/jq", none, none, none⟩]⟩
        "/usr/bin/jq".toList (BrokerResult.decided Decision.allowOnce)
        = ⟨Outcome.denied, false⟩ :=
  ⟨rfl, exec_security_deny_always_denied _ _ _ rfl⟩

/-- C5: under `security=allowlist` with a matching entry, `ask=off`
executes without any prompt while `ask=always` still prompts — the ask
and security axes are independent. -/
theorem allowlist_match_ask_axes (pol : AgentPolicy) (path : List Char)
    (b : BrokerResult) (i : Nat)
    (hsec : pol.security = Security.allowlist)
    (hm : findMatch path pol.allowlist = some i) :
    (pol.ask = Ask.off → dispatch pol path b = ⟨Outcome.executing, false⟩)
    ∧ (pol.ask = Ask.always → (dispatch pol path b).prompted = true) := by
  constructor
  · intro ha
    simp [dispatch, hsec, ha, hm]
  · intro ha
    simp [dispatch, hsec, ha, hm, promptResult_prompted]

/-- Witness for C5 at a concrete matching policy, for both ask modes. -/
theorem allowlist_match_ask_axes_witness :
    ((⟨Security.allowlist, Ask.off, Security.deny, false,
        [⟨"/usr/bin/jq", none, none, none⟩]⟩ : AgentPolicy).security = Security.allowlist
      ∧ findMatch "/usr/bin/jq".toList
          [⟨"/usr/bin/jq", none, none, none⟩] = some 0
      ∧ dispatch
          ⟨Security.allowlist, Ask.off, Security.deny, false,
            [⟨"/usr/bin/jq", none, none, none⟩]⟩
          "/usr/bin/jq".toList BrokerResult.unreachable
          = ⟨Outcome.executing, false⟩)
    ∧ ((dispatch
          ⟨Security.allowlist, Ask.always, Security.deny, false,
            [⟨"/usr/bin/jq", none, none, none⟩]⟩
          "/usr/bin/jq".toList (BrokerResult.decided Decision.allowOnce)).prompted
        = true) :=
  ⟨⟨rfl, by decide,
      (allowlist_match_ask_axes _ _ _ 0 rfl (by decide)).1 rfl⟩,
    (allowlist_match_ask_axes _ _ _ 0 rfl (by decide)).2 rfl⟩

/-- C2: when the request is in the `Prompting` state and no Approval
Broker UI is reachable, the dispatcher's outcome equals running the
dispatcher with `askFallback` substituted as the effective security mode
and no further prompting; in particular a fallback of `deny` denies,
`full` executes, and `allowlist` re-runs the allowlist check. -/
theorem askFallback_applied_when_ui_unreachable (pol : AgentPolicy) (path : List Char)
    (h : entersPrompting pol path = true) :
    (dispatch pol path BrokerResult.unreachable).outcome
      = (dispatch
          ⟨pol.askFallback, Ask.off, pol.askFallback, pol.autoAllowSkills, pol.allowlist⟩
          path BrokerResult.unreachable).outcome
    ∧ (pol.askFallback = Security.deny →
        (dispatch pol path BrokerResult.unreachable).outcome = Outcome.denied)
    ∧ (pol.askFallback = Security.full →
        (dispatch pol path BrokerResult.unreachable).outcome = Outcome.executing)
    ∧ (pol.askFallback = Security.allowlist →
        (dispatch pol path BrokerResult.unreachable).outcome
          = if (findMatch path pol.allowlist).isSome then Outcome.executing
            else Outcome.denied) := by
  obtain ⟨sec, ask, fb, auto, al⟩ := pol
  simp only [entersPrompting] at h
  cases sec <;> cases ask <;> by_cases hm : (findMatch path al).isSome <;> cases fb <;>
    simp_all [dispatch, promptResult, fallbackOutcome]

/-- Witness for C2: a policy with `security=full, ask=always`, UI
unreachable, exercised at `askFallback=deny`. -/
theorem askFallback_applied_when_ui_unreachable_witness :
    entersPrompting
        (⟨Security.full, Ask.always, Security.deny, false, []⟩ : AgentPolicy)
        "/usr/bin/jq".toList = true
    ∧ (dispatch (⟨Security.full, Ask.always, Security.deny, false, []⟩ : AgentPolicy)
        "/usr/bin/jq".toList BrokerResult.unreachable).outcome = Outcome.denied :=
  ⟨by decide,
    (askFallback_applied_when_ui_unreachable _ _ (by decide)).2.1 rfl⟩

/-- C6: the Allowlist Matcher tests entries in order with first match
winning, and its glob semantics are case-insensitive with `*` confined
to one path segment and `**` crossing segments: `~/bin/*` matches
`~/bin/rg` but not `~/bin/sub/rg`, while `~/bin/**` matches both. -/
theorem allowlist_first_match_glob_semantics :
    (∀ (path : List Char) (es : List AllowlistEntry) (i : Nat),
        findMatch path es = some i →
          (∃ e, es[i]? = some e ∧ entryMatches path e = true)
          ∧ ∀ j, j < i → ∀ e, es[j]? = some e → entryMatches path e = false)
    ∧ globMatchStr "~/bin/*" "~/bin/rg" = true
    ∧ globMatchStr "~/bin/*" "~/bin/sub/rg" = false
    ∧ globMatchStr "~/bin/**" "~/bin/rg" = true
    ∧ globMatchStr "~/bin/**" "~/bin/sub/rg" = true
    ∧ globMatchStr "~/BIN/RG" "~/bin/rg" = true
    ∧ globMatchStr "~/bin/rg" "~/BIN/RG" = true :=
  ⟨findMatch_first_wins, by decide, by decide, by decide, by decide, by decide, by decide⟩

/-- Witness for C6: on a two-entry allowlist where both entries match,
the matcher returns the first index, and the inner implication is
discharged at that input. -/
theorem allowlist_first_match_glob_semantics_witness :
    findMatch "/usr/bin/jq".toList
        [⟨"/usr/bin/*", none, none, none⟩, ⟨"/usr/bin/jq", none, none, none⟩]
        = some 0
    ∧ (∃ e,
        ([⟨"/usr/bin/*", none, none, none⟩,
          ⟨"/usr/bin/jq", none, none, none⟩] : List AllowlistEntry)[0]? = some e
        ∧ entryMatches "/usr/bin/jq".toList e = true) :=
  ⟨by decide,
    (allowlist_first_match_glob_semantics.1 "/usr/bin/jq".toList
      [⟨"/usr/bin/*", none, none, none⟩, ⟨"/usr/bin/jq", none, none, none⟩] 0
      (by decide)).1⟩

/-- C7: an allowlist pattern that fails to compile is treated as a
non-match — never a match, never a crash — and is skipped, so the
remaining patterns are still tested and a later valid pattern can still
produce a match. -/
theorem invalid_pattern_skipped (path : List Char) (e : AllowlistEntry)
    (rest : List AllowlistEntry)
    (h : compileGlob e.pattern.toList = none) :
    entryMatches path e = false
    ∧ findMatch path (e :: rest) = (findMatch path rest).map (fun i => i + 1)
    ∧ ∀ i, findMatch path rest = some i → findMatch path (e :: rest) = some (i + 1) := by
  have h2 : compileGlob e.pattern.data = none := h
  have hnm : entryMatches path e = false := by
    simp [entryMatches, globMatch, h2]
  refine ⟨hnm, ?_, ?_⟩
  · simp [findMatch, hnm]
  · intro i hi
    simp [findMatch, hnm, hi]

/-- Witness for C7: the malformed pattern `[abc` fails to compile, is
skipped, and the later valid pattern `/usr/bin/jq` still matches. -/
theorem invalid_pattern_skipped_witness :
    compileGlob ("[abc" : String).toList = none
    ∧ (entryMatches "/usr/bin/jq".toList ⟨"[abc", none, none, none⟩ = false
        ∧ findMatch "/usr/bin/jq".toList
            [⟨"[abc", none, none, none⟩, ⟨"/usr/bin/jq", none, none, none⟩]
            = (findMatch "/usr/bin/jq".toList
                [⟨"/usr/bin/jq", none, none, none⟩]).map (fun i => i + 1)
        ∧ ∀ i, findMatch "/usr/bin/jq".toList
              [⟨"/usr/bin/jq", none, none, none⟩] = some i →
            findMatch "/usr/bin/jq".toList
              [⟨"[abc", none, none, none⟩, ⟨"/usr/bin/jq", none, none, none⟩]
              = some (i + 1)) :=
  ⟨by decide,
    invalid_pattern_skipped "/usr/bin/jq".toList ⟨"[abc", none, none, none⟩
      [⟨"/usr/bin/jq", none, none, none⟩] (by decide)⟩

/-- C4: each effective-policy field is resolved independently through the
chain explicit tool-call parameter → per-agent override → global default
→ hardcoded safe default (`host=sandbox`, `security=deny`,
`ask=on-miss`, `askFallback=deny`, no node binding): an explicit
parameter wins its own field without disturbing any other field, an
omitted field falls through to the agent override, then the global
default, then the hardcoded default. -/
theorem exec_policy_precedence_independent :
    (∀ (p a g : ExecOverrides) (hv : Host),
        (resolveExecPolicy { p with host := some hv } a g).host = hv
        ∧ (resolveExecPolicy { p with host := some hv } a g).security
            = (resolveExecPolicy p a g).security
        ∧ (resolveExecPolicy { p with host := some hv } a g).ask
            = (resolveExecPolicy p a g).ask
        ∧ (resolveExecPolicy { p with host := some hv } a g).askFallback
            = (resolveExecPolicy p a g).askFallback
        ∧ (resolveExecPolicy { p with host := some hv } a g).node
            = (resolveExecPolicy p a g).node)
    ∧ (∀ (p a g : ExecOverrides) (s : Security),
        (resolveExecPolicy { p with security := some s } a g).security = s
        ∧ (resolveExecPolicy { p with security := some s } a g).host
            = (resolveExecPolicy p a g).host)
    ∧ (∀ (a g : ExecOverrides) (hv : Host),
        (resolveExecPolicy { host := some hv } a g).security
          = a.security.getD (g.security.getD Security.deny)
        ∧ (resolveExecPolicy { host := some hv } a g).ask
          = a.ask.getD (g.ask.getD Ask.onMiss)
        ∧ (resolveExecPolicy { host := some hv } a g).askFallback
          = a.askFallback.getD (g.askFallback.getD Security.deny))
    ∧ (∀ (g : ExecOverrides) (s : Security),
        (resolveExecPolicy {} { security := some s } g).security = s)
    ∧ (∀ (s : Security),
        (resolveExecPolicy {} {} { security := some s }).security = s)
    ∧ resolveExecPolicy {} {} {}
        = ⟨Host.sandbox, Security.deny, Ask.onMiss, Security.deny, none⟩ := by
  refine ⟨?_, ?_, ?_, ?_, ?_, rfl⟩
  · intro p a g hv
    refine ⟨rfl, rfl, rfl, rfl, rfl⟩
  · intro p a g s
    refine ⟨rfl, rfl⟩
  · intro a g hv
    refine ⟨?_, ?_, ?_⟩ <;>
      simp [resolveExecPolicy, resolveField]
  · intro g s
    rfl
  · intro s
    cases g_sec : ({} : ExecOverrides).security <;> rfl

/-- C3: the policy-store effect of an approval decision. `AllowAlways`
performs an allowlist upsert in the prompting host's document through
the policy store before the broker returns, after which an identical
request with `ask=off` matches the allowlist and executes without
prompting; `AllowOnce` and `Deny` leave the stored document completely
unchanged. -/
theorem approval_decision_policy_effects (doc : PolicyDocument) (aId p : String)
    (fb : Security) (auto : Bool) (b : BrokerResult)
    (hlit : isLiteralPath p.toList = true) :
    ((agentPolicyFor (brokerReturn doc aId p Decision.allowAlways).1 aId).allowlist
        = upsertEntry (agentPolicyFor doc aId).allowlist ⟨p, none, none, some p⟩)
    ∧ dispatch
        ⟨Security.allowlist, Ask.off, fb, auto,
          (agentPolicyFor (brokerReturn doc aId p Decision.allowAlways).1 aId).allowlist⟩
        p.toList b
        = ⟨Outcome.executing, false⟩
    ∧ (brokerReturn doc aId p Decision.allowOnce).1 = doc
    ∧ (brokerReturn doc aId p Decision.denyCmd).1 = doc := by
  have hdoc :
      (brokerReturn doc aId p Decision.allowAlways).1
        = setAgentPolicy doc aId
            { agentPolicyFor doc aId with
                allowlist := upsertEntry (agentPolicyFor doc aId).allowlist
                  ⟨p, none, none, some p⟩ } := rfl
  have hpol :
      (agentPolicyFor (brokerReturn doc aId p Decision.allowAlways).1 aId).allowlist
        = upsertEntry (agentPolicyFor doc aId).allowlist ⟨p, none, none, some p⟩ := by
    rw [hdoc, agentPolicyFor_set_same]
  have hmem : (⟨p, none, none, some p⟩ : AllowlistEntry)
      ∈ upsertEntry (agentPolicyFor doc aId).allowlist ⟨p, none, none, some p⟩ :=
    mem_upsertEntry_self _ _
  have hmatch : entryMatches p.toList (⟨p, none, none, some p⟩ : AllowlistEntry) = true := by
    simpa [entryMatches] using globMatch_literal_self p.toList hlit
  have hsome : (findMatch p.toList
      (upsertEntry (agentPolicyFor doc aId).allowlist
        ⟨p, none, none, some p⟩)).isSome = true :=
    findMatch_isSome_of_mem _ _ _ hmem hmatch
  have hsome2 : (findMatch p.data
      (upsertEntry (agentPolicyFor doc aId).allowlist
        ⟨p, none, none, some p⟩)).isSome = true := hsome
  refine ⟨hpol, ?_, rfl, rfl⟩
  rw [hpol]
  simp [dispatch, hsome2]

/-- Witness for C3 on an initially empty document: after `AllowAlways`
for `/usr/bin/jq`, the agent's allowlist holds the entry and the repeat
request executes without prompting; `AllowOnce`/`Deny` change nothing. -/
theorem approval_decision_policy_effects_witness :
    isLiteralPath ("/usr/bin/jq" : String).toList = true
    ∧ (((agentPolicyFor
          (brokerReturn
            ⟨1, "~/.clawdbot/exec-approvals.sock", "tok",
              ⟨Security.deny, Ask.onMiss, Security.deny, false, []⟩, []⟩
            "main" "/usr/bin/jq" Decision.allowAlways).1 "main").allowlist
        = upsertEntry
            (agentPolicyFor
              ⟨1, "~/.clawdbot/exec-approvals.sock", "tok",
                ⟨Security.deny, Ask.onMiss, Security.deny, false, []⟩, []⟩ "main").allowlist
            ⟨"/usr/bin/jq", none, none, some "/usr/bin/jq"⟩)
    ∧ dispatch
        ⟨Security.allowlist, Ask.off, Security.deny, false,
          (agentPolicyFor
            (brokerReturn
              ⟨1, "~/.clawdbot/exec-approvals.sock", "tok",
                ⟨Security.deny, Ask.onMiss, Security.deny, false, []⟩, []⟩
              "main" "/usr/bin/jq" Decision.allowAlways).1 "main").allowlist⟩
        ("/usr/bin/jq" : String).toList BrokerResult.unreachable
        = ⟨Outcome.executing, false⟩
    ∧ (brokerReturn
          ⟨1, "~/.clawdbot/exec-approvals.sock", "tok",
            ⟨Security.deny, Ask.onMiss, Security.deny, false, []⟩, []⟩
          "main" "/usr/bin/jq" Decision.allowOnce).1
        = ⟨1, "~/.clawdbot/exec-approvals.sock", "tok",
            ⟨Security.deny, Ask.onMiss, Security.deny, false, []⟩, []⟩
    ∧ (brokerReturn
          ⟨1, "~/.clawdbot/exec-approvals.sock", "tok",
            ⟨Security.deny, Ask.onMiss, Security.deny, false, []⟩, []⟩
          "main" "/usr/bin/jq" Decision.denyCmd).1
        = ⟨1, "~/.clawdbot/exec-approvals.sock", "tok",
            ⟨Security.deny, Ask.onMiss, Security.deny, false, []⟩, []⟩) :=
  ⟨by decide,
    approval_decision_policy_effects
      ⟨1, "~/.clawdbot/exec-approvals.sock", "tok",
        ⟨Security.deny, Ask.onMiss, Security.deny, false, []⟩, []⟩
      "main" "/usr/bin/jq" Security.deny false BrokerResult.unreachable (by decide)⟩

/-- C8: node binding resolution tries exact id, then normalized display
name, then remote IP, then an id prefix of at least 6 characters; a
stage with a unique candidate resolves to it, several candidates fail
closed as `ambiguous`, a too-short prefix reference with no earlier
match fails as `notFound`, zero candidates everywhere fail as
`notFound`, and an empty reference with more than one connected node
fails closed as `ambiguous`. -/
theorem node_binding_resolution (ref : String) (nodes : List NodeInfo) (n : NodeInfo) :
    (ref ≠ "" → nodes.filter (fun m => m.nodeId = ref) = [n] →
        resolveNodeRef ref nodes = Except.ok n)
    ∧ (ref ≠ "" →
        nodes.filter (fun m => m.nodeId = ref) = [] →
        nodes.filter (fun m => normName m.displayName = normName ref) = [n] →
        resolveNodeRef ref nodes = Except.ok n)
    ∧ (ref ≠ "" →
        nodes.filter (fun m => m.nodeId = ref) = [] →
        nodes.filter (fun m => normName m.displayName = normName ref) = [] →
        nodes.filter (fun m => m.remoteIp = ref) = [n] →
        resolveNodeRef ref nodes = Except.ok n)
    ∧ (ref ≠ "" →
        nodes.filter (fun m => m.nodeId = ref) = [] →
        nodes.filter (fun m => normName m.displayName = normName ref) = [] →
        nodes.filter (fun m => m.remoteIp = ref) = [] →
        6 ≤ ref.toList.length →
        nodes.filter (fun m => ref.toList.isPrefixOf m.nodeId.toList) = [n] →
        resolveNodeRef ref nodes = Except.ok n)
    ∧ (ref ≠ "" →
        nodes.filter (fun m => m.nodeId = ref) = [] →
        nodes.filter (fun m => normName m.displayName = normName ref) = [] →
        nodes.filter (fun m => m.remoteIp = ref) = [] →
        6 ≤ ref.toList.length →
        2 ≤ (nodes.filter (fun m => ref.toList.isPrefixOf m.nodeId.toList)).length →
        resolveNodeRef ref nodes = Except.error NodeResolveError.ambiguous)
    ∧ (ref ≠ "" →
        nodes.filter (fun m => m.nodeId = ref) = [] →
        nodes.filter (fun m => normName m.displayName = normName ref) = [] →
        nodes.filter (fun m => m.remoteIp = ref) = [] →
        ref.toList.length < 6 →
        resolveNodeRef ref nodes = Except.error NodeResolveError.notFound)
    ∧ (ref ≠ "" →
        nodes.filter (fun m => m.nodeId = ref) = [] →
        nodes.filter (fun m => normName m.displayName = normName ref) = [] →
        nodes.filter (fun m => m.remoteIp = ref) = [] →
        nodes.filter (fun m => ref.toList.isPrefixOf m.nodeId.toList) = [] →
        resolveNodeRef ref nodes = Except.error NodeResolveError.notFound)
    ∧ (ref = "" → 2 ≤ nodes.length →
        resolveNodeRef ref nodes = Except.error NodeResolveError.ambiguous) := by
  refine ⟨?_, ?_, ?_, ?_, ?_, ?_, ?_, ?_⟩
  · intro h h1
    unfold resolveNodeRef
    rw [if_neg h, h1]
    rfl
  · intro h h1 h2
    unfold resolveNodeRef
    rw [if_neg h, h1, h2]
    rfl
  · intro h h1 h2 h3
    unfold resolveNodeRef
    rw [if_neg h, h1, h2, h3]
    rfl
  · intro h h1 h2 h3 hlen h4
    unfold resolveNodeRef
    rw [if_neg h, h1, h2, h3, if_pos hlen, h4]
    rfl
  · intro h h1 h2 h3 hlen h4
    unfold resolveNodeRef
    rw [if_neg h, h1, h2, h3, if_pos hlen]
    rcases hf : nodes.filter (fun m => ref.toList.isPrefixOf m.nodeId.toList) with
      _ | ⟨a, _ | ⟨b, rest⟩⟩
    · rw [hf] at h4; simp at h4
    · rw [hf] at h4; simp at h4
    · rw [hf]
      rfl
  · intro h h1 h2 h3 hlen
    unfold resolveNodeRef
    rw [if_neg h, h1, h2, h3, if_neg (by omega)]
    rfl
  · intro h h1 h2 h3 h4
    unfold resolveNodeRef
    rw [if_neg h, h1, h2, h3]
    by_cases hlen : 6 ≤ ref.toList.length
    · rw [if_pos hlen, h4]
      rfl
    · rw [if_neg hlen]
      rfl
  · intro h hn
    unfold resolveNodeRef
    rw [if_pos h]
    rcases nodes with _ | ⟨a, _ | ⟨b, rest⟩⟩
    · simp at hn
    · simp at hn
    · rfl

/-- Witness for C8 with the documented pair of nodes: `abc123` resolves
exactly, while the 4-character reference `abc1` is too short for prefix
matching and fails as not found. -/
theorem node_binding_resolution_witness :
    (("abc123" : String) ≠ ""
      ∧ ([⟨"abc123", "mac-1", "10.0.0.1"⟩, ⟨"abc999", "mac-2", "10.0.0.2"⟩]
            : List NodeInfo).filter (fun m => m.nodeId = ("abc123" : String))
          = [⟨"abc123", "mac-1", "10.0.0.1"⟩]
      ∧ resolveNodeRef "abc123"
          [⟨"abc123", "mac-1", "10.0.0.1"⟩, ⟨"abc999", "mac-2", "10.0.0.2"⟩]
          = Except.ok ⟨"abc123", "mac-1", "10.0.0.1"⟩)
    ∧ resolveNodeRef "abc1"
        [⟨"abc123", "mac-1", "10.0.0.1"⟩, ⟨"abc999", "mac-2", "10.0.0.2"⟩]
        = Except.error NodeResolveError.notFound
    ∧ resolveNodeRef ""
        [⟨"abc123", "mac-1", "10.0.0.1"⟩, ⟨"abc999", "mac-2", "10.0.0.2"⟩]
        = Except.error NodeResolveError.ambiguous :=
  ⟨⟨by decide, by decide,
      (node_binding_resolution "abc123"
          [⟨"abc123", "mac-1", "10.0.0.1"⟩, ⟨"abc999", "mac-2", "10.0.0.2"⟩]
          ⟨"abc123", "mac-1", "10.0.0.1"⟩).1 (by decide) (by decide)⟩,
    (node_binding_resolution "abc1"
        [⟨"abc123", "mac-1", "10.0.0.1"⟩, ⟨"abc999", "mac-2", "10.0.0.2"⟩]
        ⟨"abc123", "mac-1", "10.0.0.1"⟩).2.2.2.2.2.1
      (by decide) (by decide) (by decide) (by decide) (by decide),
    (node_binding_resolution ""
        [⟨"abc123", "mac-1", "10.0.0.1"⟩, ⟨"abc999", "mac-2", "10.0.0.2"⟩]
        ⟨"abc123", "mac-1", "10.0.0.1"⟩).2.2.2.2.2.2.2 rfl (by decide)⟩

/-- C9: output exceeding the 200 KB cap is truncated to exactly the cap
(keeping a suffix of the stream), and the `exec.finished` tail is
exactly the last 20 KB of the output with the truncation marker
appended. -/
theorem output_truncation_tail (o : List Nat) (h : maxOutputBytes < o.length) :
    (capCombinedOutput o).length = maxOutputBytes
    ∧ capCombinedOutput o <:+ o
    ∧ finishedEventTail o = lastBytes tailOutputBytes o ++ truncationMarker
    ∧ (lastBytes tailOutputBytes o).length = tailOutputBytes
    ∧ lastBytes tailOutputBytes o <:+ o := by
  have hmax : maxOutputBytes = 204800 := by norm_num [maxOutputBytes]
  have htail : tailOutputBytes = 20480 := by norm_num [tailOutputBytes]
  have h1 : ¬o.length ≤ maxOutputBytes := by omega
  refine ⟨?_, ?_, ?_, ?_, ?_⟩
  · simp only [capCombinedOutput, h1, if_false, lastBytes, List.length_drop]
    omega
  · simp only [capCombinedOutput, h1, if_false, lastBytes]
    exact List.drop_suffix _ _
  · simp only [finishedEventTail, h1, if_false]
  · simp only [lastBytes, List.length_drop]
    omega
  · exact List.drop_suffix _ _

/-- Witness for C9 at a 204801-byte output, one byte over the cap. -/
theorem output_truncation_tail_witness :
    maxOutputBytes < (List.replicate 204801 (0 : Nat)).length
    ∧ ((capCombinedOutput (List.replicate 204801 (0 : Nat))).length = maxOutputBytes
        ∧ capCombinedOutput (List.replicate 204801 (0 : Nat))
            <:+ List.replicate 204801 (0 : Nat)
        ∧ finishedEventTail (List.replicate 204801 (0 : Nat))
            = lastBytes tailOutputBytes (List.replicate 204801 (0 : Nat))
                ++ truncationMarker
        ∧ (lastBytes tailOutputBytes (List.replicate 204801 (0 : Nat))).length
            = tailOutputBytes
        ∧ lastBytes tailOutputBytes (List.replicate 204801 (0 : Nat))
            <:+ List.replicate 204801 (0 : Nat)) :=
  ⟨by norm_num [maxOutputBytes, List.length_replicate],
    output_truncation_tail _ (by norm_num [maxOutputBytes, List.length_replicate])⟩

/-- C10: caller-supplied environment overrides named `PATH`,
`NODE_OPTIONS`, `RUBYOPT` or matching `DYLD_*`, `LD_*`, `PYTHON*`,
`PERL*` are dropped before the merge — the merged environment resolves
such names from the app environment — and any two override lists that
agree after filtering produce identical effective environments. -/
theorem env_overrides_filtered (appEnv o o1 o2 : List (String × String))
    (n : String)
    (hdrop : isFilteredEnvName n = true)
    (hsame : filterEnvOverrides o1 = filterEnvOverrides o2) :
    envLookup (mergedEnv appEnv o) n = envLookup appEnv n
    ∧ mergedEnv appEnv o1 = mergedEnv appEnv o2 := by
  constructor
  · have hnone : (filterEnvOverrides o).find? (fun kv => kv.1 = n) = none := by
      rw [List.find?_eq_none]
      intro kv hkv hpred
      have h1 := List.of_mem_filter hkv
      have h2 : kv.1 = n := by simpa using hpred
      rw [h2] at h1
      simp [hdrop] at h1
    unfold mergedEnv envLookup
    rw [List.find?_append, hnone]
    simp
  · unfold mergedEnv
    rw [hsame]

/-- Witness for C10: a `PATH` override is dropped (the app `PATH` wins),
and two override lists differing only in `PATH`/`LD_PRELOAD` yield the
same merged environment. -/
theorem env_overrides_filtered_witness :
    isFilteredEnvName "PATH" = true
    ∧ filterEnvOverrides [("PATH", "a"), ("FOO", "1")]
        = filterEnvOverrides [("LD_PRELOAD", "b"), ("FOO", "1")]
    ∧ (envLookup (mergedEnv [("PATH", "sys")] [("PATH", "x")]) "PATH"
          = envLookup [("PATH", "sys")] "PATH"
        ∧ mergedEnv [("PATH", "sys")] [("PATH", "a"), ("FOO", "1")]
            = mergedEnv [("PATH", "sys")] [("LD_PRELOAD", "b"), ("FOO", "1")]) :=
  ⟨by decide, by decide,
    env_overrides_filtered [("PATH", "sys")] [("PATH", "x")]
      [("PATH", "a"), ("FOO", "1")] [("LD_PRELOAD", "b"), ("FOO", "1")]
      "PATH" (by decide) (by decide)⟩

end OpenClaw
